import Mathlib

set_option maxRecDepth 400000

/-!
Shallow embedding of the A* grid search in `src/main.c` (HarveyBates/a-star).

The program works on a fixed 40 x 40 grid of cells.  All cost values in the C
source are `double`s, but every value ever computed is an integer combination
of the step weights 10 and 14, so they are represented exactly here as `Nat`.
Coordinates are `Int` (neighbour enumeration produces `-1` before the bounds
check, and `-1` is the parent sentinel).

The open queue `open_nodes_queue.cells[0..idx]` is modelled as a `List Cell`
whose head is array index `0` and whose last element is array index `idx`
(so `idx = length - 1`).  The C array has a fixed capacity `QUEUE_SIZE`; the
list model is unbounded, and an element appended at list index `>= QUEUE_SIZE`
corresponds to a write outside the C array's bounds.

The random source of `create_barriers` (libc `rand`) is modelled as an
explicit list of sampled coordinates; the `while` loop is driven by that list
and returns `none` if the list is exhausted before the requested number of
placements succeeded.

`qsort` with `compare_cell_cost` orders the array by descending `cost`; the
comparator returns 0 on ties, whose relative order `qsort` leaves unspecified.
The model fixes the tie order to be stable (original order preserved), which
is one behaviour `qsort` is allowed to produce.
-/

def CELL_COUNT : Int := 40

def QUEUE_SIZE : Nat := 1600

def START_X : Int := 3

def START_Y : Int := 8

def TARGET_X : Int := 38

def TARGET_Y : Int := 38

structure CellPosition where
  x : Int
  y : Int
deriving DecidableEq, Repr

inductive CellState where
  | EMPTY
  | START
  | BARRIER
  | VISITED
  | NEIGHBOUR
  | PATH
  | TARGET
deriving DecidableEq, Repr

structure Cell where
  position : CellPosition
  h_cost : Nat
  g_cost : Nat
  cost : Nat
  state : CellState
  parent_position : CellPosition
deriving DecidableEq, Repr

def Grid : Type := CellPosition → Cell

def updateGrid (gr : Grid) (p : CellPosition) (c : Cell) : Grid :=
  fun q => if q = p then c else gr q

def setCellState (gr : Grid) (p : CellPosition) (st : CellState) : Grid :=
  updateGrid gr p { gr p with state := st }

/-- `bool is_full(Queue_Typedef*)`: `queue->idx > QUEUE_SIZE - 1`, with
`idx = length - 1` in the list model. -/
def is_full (q : List Cell) : Bool :=
  (q.length : Int) - 1 > (QUEUE_SIZE : Int) - 1

/-- `bool is_empty(Queue_Typedef*)`: `queue->idx < 0`. -/
def is_empty (q : List Cell) : Bool :=
  (q.length : Int) - 1 < 0

/-- `void enqueue(...)`: `if (is_full(queue)) return; queue->cells[++queue->idx] = cell;`.
The stored element lands at array index `q.length` (the new `idx`). -/
def enqueue (q : List Cell) (c : Cell) : List Cell :=
  if is_full q then q else q ++ [c]

/-- `bool pop(...)`: returns `cells[idx]` (the last list element) and decrements
`idx`; `none` when the queue is empty. -/
def pop (q : List Cell) : Option (Cell × List Cell) :=
  match q.getLast? with
  | none => none
  | some c => some (c, q.dropLast)

/-- `double compute_distance(int, int, int, int)` (octile weights 14/10). -/
def compute_distance (x1 y1 x2 y2 : Int) : Nat :=
  let dx := (x1 - x2).natAbs
  let dy := (y1 - y2).natAbs
  if dx > dy then 14 * dy + 10 * (dx - dy) else 14 * dx + 10 * (dy - dx)

/-- `double g(int, int)`: straight-line octile distance from the start. -/
def g (x1 y1 : Int) : Nat := compute_distance x1 y1 START_X START_Y

/-- `double h(int, int)`: straight-line octile distance to the target. -/
def h (x1 y1 : Int) : Nat := compute_distance x1 y1 TARGET_X TARGET_Y

/-- One insertion step of the descending-by-`cost` sort that models
`qsort(..., compare_cell_cost)`. -/
def insertDesc (c : Cell) : List Cell → List Cell
  | [] => [c]
  | x :: xs => if x.cost > c.cost then x :: insertDesc c xs else c :: x :: xs

/-- Sort by descending `cost` (ties stable), modelling
`qsort(open_nodes_queue.cells, idx + 1, ..., compare_cell_cost)`. -/
def sortDesc : List Cell → List Cell
  | [] => []
  | x :: xs => insertDesc x (sortDesc xs)

/-- The loop body of `draw_path`, with `fuel` the remaining iterations allowed
by the `force_stop < 1000` guard.  Returns the final grid together with the
number of loop-body executions performed. -/
def drawPathGo (gr : Grid) (tmp : Cell) : Nat → Grid × Nat
  | 0 => (gr, 0)
  | fuel + 1 =>
    let gr1 := setCellState gr tmp.position .PATH
    let tmp1 := gr1 tmp.parent_position
    if tmp1.parent_position = (⟨-1, -1⟩ : CellPosition) then (gr1, 1)
    else
      let r := drawPathGo gr1 tmp1 fuel
      (r.fst, r.snd + 1)

/-- `void draw_path(Cell_Typedef*)`. -/
def draw_path (gr : Grid) (current_cell : Cell) : Grid :=
  (drawPathGo gr (gr current_cell.position) 1000).fst

/-- Number of loop iterations `draw_path` executes on the given input. -/
def drawPathIterations (gr : Grid) (current_cell : Cell) : Nat :=
  (drawPathGo gr (gr current_cell.position) 1000).snd

/-- The `neighbours[NEIGHBOURS_COUNT]` array of `a_star`, in source order. -/
def neighboursOf (x y : Int) : List CellPosition :=
  [⟨x - 1, y - 1⟩, ⟨x + 1, y + 1⟩, ⟨x + 1, y - 1⟩, ⟨x - 1, y + 1⟩,
   ⟨x + 1, y⟩, ⟨x - 1, y⟩, ⟨x, y - 1⟩, ⟨x, y + 1⟩]

/-- The bounds check of the neighbour loop (negation of the `continue` test). -/
def inBounds (p : CellPosition) : Bool :=
  !(p.x < 0 || p.x > CELL_COUNT - 1 || p.y < 0 || p.y > CELL_COUNT - 1)

/-- The `is_closed` scan: `for (c = 0; c < closed_nodes_count; c++)`. -/
def isClosedScan (closed : List Cell) (p : CellPosition) : Bool :=
  closed.any fun c => c.position.x == p.x && c.position.y == p.y

/-- The `in_queue` scan: `for (o = 0; o < open_nodes_queue.idx; o++)` — note
the strict bound `idx`, so the element at array index `idx` (the last list
element) is never inspected. -/
def inQueueScan (q : List Cell) (p : CellPosition) : Bool :=
  q.dropLast.any fun c => c.position.x == p.x && c.position.y == p.y

/-- The grid cell produced by the admission block (source lines 232-244):
position, `g_cost`, `h_cost`, `cost`, parent are overwritten, and the state is
set to `CELL_NEIGHBOUR` only when it was `CELL_EMPTY`. -/
def updatedNeighbourCell (gr : Grid) (cur : Cell) (p : CellPosition) : Cell :=
  let neighbour_g :=
    cur.g_cost + compute_distance cur.position.x cur.position.y p.x p.y
  { position := p
    g_cost := neighbour_g
    h_cost := h p.x p.y
    cost := neighbour_g + h p.x p.y
    state := if (gr p).state = .EMPTY then .NEIGHBOUR else (gr p).state
    parent_position := cur.position }

inductive NeighbourOutcome where
  | cont (gr : Grid) (q : List Cell)
  | foundTarget (gr : Grid)

/-- The body of the neighbour loop of `a_star` for one neighbour `p`:
bounds check, target check (which draws the path and aborts the whole call),
barrier check, closed check, and the admission rule. -/
def assess (cur : Cell) (closed : List Cell) (gr : Grid) (q : List Cell)
    (p : CellPosition) : NeighbourOutcome :=
  if !(inBounds p) then .cont gr q
  else if (gr p).state = .TARGET then .foundTarget (draw_path gr cur)
  else if (gr p).state = .BARRIER then .cont gr q
  else if isClosedScan closed p then .cont gr q
  else
    let neighbour_g :=
      cur.g_cost + compute_distance cur.position.x cur.position.y p.x p.y
    if !(inQueueScan q p) || neighbour_g ≤ g p.x p.y then
      let c := updatedNeighbourCell gr cur p
      .cont (updateGrid gr p c) (enqueue q c)
    else .cont gr q

/-- Search state: the grid, `open_nodes_queue`, `closed_nodes` (with
`closed_nodes_count = closed.length`) and `found_target`. -/
structure AState where
  grid : Grid
  queue : List Cell
  closed : List Cell
  found_target : Bool

/-- The neighbour loop of `a_star`; on normal completion the queue is
resorted, while the early `return` taken on finding the target skips the
sort. -/
def processNeighbours (cur : Cell) (closed : List Cell) :
    List CellPosition → Grid → List Cell → AState
  | [], gr, q => ⟨gr, sortDesc q, closed, false⟩
  | p :: rest, gr, q =>
    match assess cur closed gr q p with
    | .foundTarget gr1 => ⟨gr1, q, closed, true⟩
    | .cont gr1 q1 => processNeighbours cur closed rest gr1 q1

/-- `void a_star()`: one step of the search. -/
def a_star (s : AState) : AState :=
  if s.found_target then s
  else
    match pop s.queue with
    | none => s
    | some (cur, q1) =>
      let closed1 := s.closed ++ [cur]
      let x := cur.position.x
      let y := cur.position.y
      let gr1 :=
        if (s.grid ⟨x, y⟩).state ≠ .START then
          setCellState s.grid ⟨x, y⟩ .VISITED
        else s.grid
      processNeighbours cur closed1 (neighboursOf x y) gr1 q1

/-- `void create_barriers(int)`, with the `rand()` draws supplied as an
explicit coordinate list; the counter argument is the number of placements
still required (`n_barriers - n_created`).  Returns `none` when the sample
list runs out first. -/
def create_barriers : List CellPosition → Nat → Grid → Option Grid
  | _, 0, gr => some gr
  | [], _ + 1, _ => none
  | p :: ps, r + 1, gr =>
    if (gr p).state ≠ .START ∧ (gr p).state ≠ .TARGET then
      create_barriers ps r (setCellState gr p .BARRIER)
    else create_barriers ps (r + 1) gr

def startPos : CellPosition := ⟨START_X, START_Y⟩

def targetPos : CellPosition := ⟨TARGET_X, TARGET_Y⟩

/-- C global arrays are zero-initialised: state `CELL_EMPTY` (= 0), all costs
0, position and parent `(0, 0)`. -/
def zeroCell : Cell :=
  { position := ⟨0, 0⟩, h_cost := 0, g_cost := 0, cost := 0,
    state := .EMPTY, parent_position := ⟨0, 0⟩ }

def baseGrid : Grid := fun _ => zeroCell

/-- The start cell as `main` initialises it (its `g` is 0, parent is the
sentinel `(-1, -1)`). -/
def startCell : Cell :=
  { position := startPos
    g_cost := g START_X START_Y
    h_cost := h START_X START_Y
    cost := g START_X START_Y + h START_X START_Y
    state := .START
    parent_position := ⟨-1, -1⟩ }

/-- The target cell as `main` initialises it (only state and position are
set; costs and parent keep their zero initialisation). -/
def targetCell : Cell := { zeroCell with position := targetPos, state := .TARGET }

/-- The grid right before `create_barriers(1000)` runs in `main`. -/
def setupGrid : Grid :=
  updateGrid (updateGrid baseGrid startPos startCell) targetPos targetCell

/-- The queue right after `main` seeds it with the start cell. -/
def initQueue : List Cell := enqueue [] startCell

/-- The search state at the end of `main`'s setup, given the grid produced by
`create_barriers`. -/
def initStateWith (gr : Grid) : AState := ⟨gr, initQueue, [], false⟩

/-- The state after `k` calls of `a_star` from the seeded state. -/
def runFrom (gr : Grid) (k : Nat) : AState :=
  Nat.iterate a_star k (initStateWith gr)

/-- All 1600 grid coordinates. -/
def allCoords : List CellPosition :=
  (List.range 40).flatMap fun x : Nat =>
    (List.range 40).map fun y : Nat => ⟨(x : Int), (y : Int)⟩

/-- Number of distinct grid cells whose state is `CELL_BARRIER`. -/
def countBarriers (gr : Grid) : Nat :=
  allCoords.countP fun p => (gr p).state == .BARRIER

/-- The parent sentinel `(-1, -1)` used by the start cell. -/
def sentinel : CellPosition := ⟨-1, -1⟩

/-- The zero-initialised coordinate `(0, 0)`. -/
def origin : CellPosition := ⟨0, 0⟩

/-- The grid obtained from `setupGrid` by placing a barrier on every cell of
`l` (the pointwise result of `create_barriers` when its samples cover exactly
the cells of `l`). -/
def barrieredGrid (l : List CellPosition) : Grid :=
  fun p => if p ∈ l then { setupGrid p with state := .BARRIER } else setupGrid p

/-- A closed ring of barriers at Chebyshev radius 2 around the start cell
`(3, 8)`: the free cells inside are the start and its 8 neighbours. -/
def ringStart : List CellPosition :=
  [⟨1, 6⟩, ⟨2, 6⟩, ⟨3, 6⟩, ⟨4, 6⟩, ⟨5, 6⟩, ⟨1, 10⟩, ⟨2, 10⟩, ⟨3, 10⟩, ⟨4, 10⟩, ⟨5, 10⟩,
   ⟨1, 7⟩, ⟨1, 8⟩, ⟨1, 9⟩, ⟨5, 7⟩, ⟨5, 8⟩, ⟨5, 9⟩]

/-- A sample stream for `create_barriers(1000)` that draws every cell of
`ringStart` once and then keeps re-drawing its first cell: all 1000 draws are
accepted, so exactly the 16 ring cells end up as barriers. -/
def ringStartSamples : List CellPosition :=
  ringStart ++ List.replicate 984 ⟨1, 6⟩

/-- The seeded grid for the ring-around-start runs. -/
def gridA : Grid := barrieredGrid ringStart

/-- Sorted by non-increasing `cost` (the order `qsort` with
`compare_cell_cost` establishes): every later element costs no more than
every earlier one. -/
def DescSorted : List Cell → Prop :=
  List.Pairwise fun a b => b.cost ≤ a.cost

/-- Invariant on grids maintained by setup, `create_barriers`, `a_star` and
`draw_path`: the start and target cells keep their states, only the target
cell carries the `TARGET` state, every cell's stored `position` is its own
coordinate or the zero-initialised `(0, 0)`, no stored parent is the target
coordinate, and the start cell's parent is the sentinel. -/
def GridInv (gr : Grid) : Prop :=
  (gr startPos).state = .START ∧
  (gr targetPos).state = .TARGET ∧
  (∀ p : CellPosition, p ≠ targetPos → (gr p).state ≠ .TARGET) ∧
  (∀ p : CellPosition, (gr p).position = p ∨ (gr p).position = origin) ∧
  (∀ p : CellPosition, (gr p).parent_position ≠ targetPos) ∧
  (gr startPos).parent_position = sentinel

/-- Invariant on whole search states: the grid invariant, every queue entry
in bounds and never the target coordinate, and the start coordinate either
being every queue entry's coordinate (before the first pop) or recorded in
the closed list (from the first pop on). -/
def SearchInv (s : AState) : Prop :=
  GridInv s.grid ∧
  (∀ c ∈ s.queue, inBounds c.position = true ∧ c.position ≠ targetPos) ∧
  ((∀ c ∈ s.queue, c.position = startPos) ∨ startPos ∈ s.closed.map Cell.position)

/-- Precondition on the walking cell of `draw_path`'s loop: marking it cannot
touch the start or target cell. -/
def TmpOk (tmp : Cell) : Prop :=
  tmp.position ≠ targetPos ∧ tmp.position ≠ startPos ∧ tmp.parent_position ≠ targetPos

/-- The grid after two accepted barrier placements, both at `(0, 0)` (the
result of `create_barriers` when the random stream repeats the origin). -/
def doubleOriginBarrierGrid : Grid :=
  setCellState (setCellState setupGrid origin .BARRIER) origin .BARRIER

/-! ### Basic helper lemmas -/

theorem mem_of_mem_dropLast {α : Type} {l : List α} {a : α}
    (h : a ∈ l.dropLast) : a ∈ l := by
  induction l with
  | nil => simp at h
  | cons x xs ih =>
    cases xs with
    | nil => simp at h
    | cons y ys =>
      rcases List.mem_cons.mp h with h1 | h2
      · exact h1 ▸ List.mem_cons_self _ _
      · exact List.mem_cons_of_mem _ (ih h2)

theorem pop_eq_some {q : List Cell} {c : Cell} {rest : List Cell}
    (h : pop q = some (c, rest)) : c ∈ q ∧ rest = q.dropLast := by
  unfold pop at h
  cases hq : q.getLast? with
  | none => rw [hq] at h; exact absurd h (by simp)
  | some d =>
    rw [hq] at h
    have hd : d ∈ q := List.mem_of_mem_getLast? (by rw [hq]; exact rfl)
    cases h
    exact ⟨hd, rfl⟩

theorem mem_insertDesc {c a : Cell} : ∀ {l : List Cell},
    a ∈ insertDesc c l ↔ a = c ∨ a ∈ l := by
  intro l
  induction l with
  | nil => simp [insertDesc]
  | cons x xs ih =>
    unfold insertDesc
    by_cases hx : x.cost > c.cost
    · simp only [if_pos hx, List.mem_cons, ih]
      try tauto
    · simp only [if_neg hx, List.mem_cons]
      try tauto

theorem mem_sortDesc {a : Cell} : ∀ {l : List Cell}, a ∈ sortDesc l ↔ a ∈ l := by
  intro l
  induction l with
  | nil => simp [sortDesc]
  | cons x xs ih =>
    unfold sortDesc
    rw [mem_insertDesc, List.mem_cons, ih]
    try tauto

theorem mem_enqueue {q : List Cell} {c a : Cell}
    (h : a ∈ enqueue q c) : a ∈ q ∨ a = c := by
  unfold enqueue at h
  by_cases hf : is_full q
  · rw [if_pos hf] at h; exact Or.inl h
  · rw [if_neg hf] at h
    simpa using h

theorem descSorted_insertDesc {c : Cell} : ∀ {l : List Cell},
    DescSorted l → DescSorted (insertDesc c l) := by
  intro l
  induction l with
  | nil => intro _; simp [insertDesc, DescSorted]
  | cons x xs ih =>
    intro hl
    rcases (List.pairwise_cons.mp hl) with ⟨hx, hxs⟩
    unfold insertDesc
    by_cases hc : x.cost > c.cost
    · rw [if_pos hc]
      refine List.pairwise_cons.mpr ⟨?_, ih hxs⟩
      intro b hb
      rcases mem_insertDesc.mp hb with hbc | hbxs
      · exact hbc ▸ Nat.le_of_lt hc
      · exact hx b hbxs
    · rw [if_neg hc]
      refine List.pairwise_cons.mpr ⟨?_, hl⟩
      intro b hb
      rcases List.mem_cons.mp hb with hbx | hbxs
      · exact hbx ▸ Nat.le_of_not_lt hc
      · exact Nat.le_trans (hx b hbxs) (Nat.le_of_not_lt hc)

theorem descSorted_sortDesc : ∀ l : List Cell, DescSorted (sortDesc l) := by
  intro l
  induction l with
  | nil => simp [sortDesc, DescSorted]
  | cons x xs ih => exact descSorted_insertDesc ih

theorem getLast_min_of_descSorted :
    ∀ (l : List Cell), DescSorted l → ∀ (hne : l ≠ []),
      ∀ d ∈ l, (l.getLast hne).cost ≤ d.cost := by
  intro l
  induction l with
  | nil => intro _ hne; exact absurd rfl hne
  | cons x xs ih =>
    intro hl hne d hd
    rcases (List.pairwise_cons.mp hl) with ⟨hx, hxs⟩
    cases xs with
    | nil =>
      rcases List.mem_cons.mp hd with h1 | h2
      · subst h1; exact Nat.le_refl _
      · simp at h2
    | cons y ys =>
      have hne2 : (y :: ys : List Cell) ≠ [] := List.cons_ne_nil _ _
      have hgl : (x :: y :: ys).getLast hne = (y :: ys).getLast hne2 :=
        List.getLast_cons hne2
      rcases List.mem_cons.mp hd with h1 | h2
      · subst h1
        have hmem : (y :: ys).getLast hne2 ∈ (y :: ys) := List.getLast_mem hne2
        exact hgl ▸ hx _ hmem
      · exact hgl ▸ ih hxs hne2 d h2

/-! ### Claim theorems: C9, C5, C4, C7, C2, C1 (amended part) -/

/-- C9: once `found_target` is set, every further `a_star` call returns the
state unchanged — grid, frontier, explored set and flag included. -/
theorem a_star_noop_after_found (s : AState) (hf : s.found_target = true) :
    a_star s = s := by
  simp [a_star, hf]

/-- Witness for C9 at a concrete found state. -/
theorem a_star_noop_after_found_witness :
    a_star ⟨baseGrid, [], [], true⟩ = ⟨baseGrid, [], [], true⟩ :=
  a_star_noop_after_found ⟨baseGrid, [], [], true⟩ rfl

/-- C5 (code bug): with the queue holding its full capacity of
`QUEUE_SIZE = 1600` entries (`idx = 1599`), `is_full` is still `false`
because of its off-by-one (`idx > QUEUE_SIZE - 1`), so `enqueue` accepts the
entry and stores it at array index 1600 — one past the end of
`cells[QUEUE_SIZE]` — instead of rejecting it with no write. -/
theorem enqueue_at_capacity_overflows :
    is_full (List.replicate QUEUE_SIZE zeroCell) = false ∧
    enqueue (List.replicate QUEUE_SIZE zeroCell) zeroCell =
      List.replicate QUEUE_SIZE zeroCell ++ [zeroCell] ∧
    (enqueue (List.replicate QUEUE_SIZE zeroCell) zeroCell).length =
      QUEUE_SIZE + 1 := by
  have hf : is_full (List.replicate QUEUE_SIZE zeroCell) = false := by
    simp [is_full, List.length_replicate, QUEUE_SIZE]
  refine ⟨hf, ?_, ?_⟩
  · simp [enqueue, hf]
  · simp [enqueue, hf, List.length_replicate]

/-- C4 (code bug): on a cyclic parent chain (the zero-initialised grid, where
cell `(0, 0)` is its own parent), `draw_path`'s walk stops silently after
exactly 1000 iterations — the arbitrary `force_stop` limit, not the
`N * N = 1600` bound the specification requires — and returns normally
without reporting any error (the function has no error channel at all). -/
theorem draw_path_truncates_at_1000 :
    drawPathIterations baseGrid zeroCell = 1000 ∧ 1000 ≠ QUEUE_SIZE := by
  constructor
  · decide
  · decide

/-- C7: whenever the frontier is the result of the end-of-step resort and is
non-empty, `pop` removes and returns an entry whose `cost` (f-cost) is
minimal among all entries currently in the frontier, and leaves exactly the
other entries behind. -/
theorem pop_after_sort_min (q0 : List Cell) (hne : sortDesc q0 ≠ []) :
    ∃ c rest, pop (sortDesc q0) = some (c, rest) ∧ c ∈ sortDesc q0 ∧
      (∀ d ∈ sortDesc q0, c.cost ≤ d.cost) ∧ rest = (sortDesc q0).dropLast := by
  refine ⟨(sortDesc q0).getLast hne, (sortDesc q0).dropLast, ?_, ?_, ?_, rfl⟩
  · unfold pop
    rw [List.getLast?_eq_getLast_of_ne_nil hne]
  · exact List.getLast_mem hne
  · exact getLast_min_of_descSorted (sortDesc q0) (descSorted_sortDesc q0) hne

/-- Witness for C7 on the one-entry frontier. -/
theorem pop_after_sort_min_witness :
    ∃ c rest, pop (sortDesc [zeroCell]) = some (c, rest) ∧
      c ∈ sortDesc [zeroCell] ∧
      (∀ d ∈ sortDesc [zeroCell], c.cost ≤ d.cost) ∧
      rest = (sortDesc [zeroCell]).dropLast :=
  pop_after_sort_min [zeroCell] (by simp [sortDesc, insertDesc])

/-- C2: for a neighbour that passed the bounds, target, barrier and
explored-set checks, and with the frontier not at capacity, the neighbour's
grid cell is rewritten to `updatedNeighbourCell` (tentative `g_cost`,
`h_cost = h(neighbour)`, `cost` recomputed, parent set to the current cell's
coordinate, state promoted to `CELL_NEIGHBOUR` exactly when it was
`CELL_EMPTY`) and a copy appended to the frontier, precisely when the
neighbour is missed by the in-frontier scan or the tentative g does not
exceed the straight-line start distance `g(neighbour)`; otherwise grid and
frontier are left unchanged for that neighbour. -/
theorem a_star_admission_rule (cur : Cell) (closed : List Cell) (gr : Grid)
    (q : List Cell) (p : CellPosition)
    (hb : inBounds p = true) (ht : (gr p).state ≠ .TARGET)
    (hbar : (gr p).state ≠ .BARRIER) (hcl : isClosedScan closed p = false)
    (hfull : is_full q = false) :
    (assess cur closed gr q p =
        .cont (updateGrid gr p (updatedNeighbourCell gr cur p))
          (q ++ [updatedNeighbourCell gr cur p])
      ↔ (inQueueScan q p = false ∨
          cur.g_cost + compute_distance cur.position.x cur.position.y p.x p.y
            ≤ g p.x p.y)) ∧
    ((inQueueScan q p = true ∧
        ¬ cur.g_cost + compute_distance cur.position.x cur.position.y p.x p.y
            ≤ g p.x p.y) →
      assess cur closed gr q p = .cont gr q) ∧
    (updatedNeighbourCell gr cur p).g_cost =
      cur.g_cost + compute_distance cur.position.x cur.position.y p.x p.y ∧
    (updatedNeighbourCell gr cur p).h_cost = h p.x p.y ∧
    (updatedNeighbourCell gr cur p).cost =
      (updatedNeighbourCell gr cur p).g_cost + (updatedNeighbourCell gr cur p).h_cost ∧
    (updatedNeighbourCell gr cur p).parent_position = cur.position ∧
    (updatedNeighbourCell gr cur p).state =
      (if (gr p).state = .EMPTY then .NEIGHBOUR else (gr p).state) := by
  have henq : enqueue q (updatedNeighbourCell gr cur p) =
      q ++ [updatedNeighbourCell gr cur p] := by
    simp [enqueue, hfull]
  have hq_ne : q ≠ q ++ [updatedNeighbourCell gr cur p] := by
    intro hcontra
    have := congrArg List.length hcontra
    simp at this
  refine ⟨?_, ?_, rfl, rfl, rfl, rfl, rfl⟩
  · unfold assess
    rw [hb]
    simp only [Bool.not_true, Bool.false_eq_true, if_false, if_neg ht,
      if_neg hbar, hcl, if_neg (by simp : ¬ (false = true))]
    by_cases hcond : (!(inQueueScan q p) ||
        decide (cur.g_cost + compute_distance cur.position.x cur.position.y p.x p.y
          ≤ g p.x p.y)) = true
    · rw [if_pos hcond, henq]
      refine ⟨fun _ => ?_, fun _ => rfl⟩
      rcases Bool.or_eq_true_iff.mp hcond with hq | hg
      · exact Or.inl (by simpa using hq)
      · exact Or.inr (of_decide_eq_true hg)
    · rw [if_neg hcond]
      constructor
      · intro hcontra
        exact absurd (congrArg
          (fun o => match o with
            | NeighbourOutcome.cont _ qq => qq
            | NeighbourOutcome.foundTarget _ => []) hcontra) hq_ne
      · intro hor
        exfalso
        apply hcond
        rcases hor with hq | hg
        · simp [hq]
        · simp [hg]
  · intro ⟨hin, hgt⟩
    unfold assess
    rw [hb]
    simp only [Bool.not_true, Bool.false_eq_true, if_false, if_neg ht,
      if_neg hbar, hcl, if_neg (by simp : ¬ (false = true))]
    rw [if_neg]
    simp [hin, hgt]

/-- Witness for C2 at the seeded grid, the empty frontier and neighbour
`(4, 9)` of the start cell. -/
theorem a_star_admission_rule_witness :
    assess startCell [] setupGrid [] ⟨4, 9⟩ =
        .cont (updateGrid setupGrid ⟨4, 9⟩ (updatedNeighbourCell setupGrid startCell ⟨4, 9⟩))
          ([] ++ [updatedNeighbourCell setupGrid startCell ⟨4, 9⟩])
      ↔ (inQueueScan [] ⟨4, 9⟩ = false ∨
          startCell.g_cost +
            compute_distance startCell.position.x startCell.position.y 4 9
            ≤ g 4 9) :=
  (a_star_admission_rule startCell [] setupGrid [] ⟨4, 9⟩
    (by decide) (by decide) (by decide) (by decide) (by decide)).1

/-- C1 (amended part): a neighbour whose coordinate is already recorded in
the explored set is never admitted — provided its cell does not carry the
`TARGET` state (the target check precedes the explored-set check), the
neighbour leaves both the grid and the frontier unchanged. -/
theorem closed_neighbour_never_admitted (cur : Cell) (closed : List Cell)
    (gr : Grid) (q : List Cell) (p : CellPosition)
    (ht : (gr p).state ≠ .TARGET) (hcl : isClosedScan closed p = true) :
    assess cur closed gr q p = .cont gr q := by
  unfold assess
  by_cases hb : inBounds p
  · rw [hb]
    simp only [Bool.not_true, Bool.false_eq_true, if_false, if_neg ht]
    by_cases hbar : (gr p).state = .BARRIER
    · rw [if_pos hbar]
    · rw [if_neg hbar, hcl, if_pos rfl]
  · rw [Bool.not_eq_true] at hb
    rw [hb]
    simp

/-- Witness for C1's amended statement: the start coordinate is closed after
the first pop, so as a neighbour it is skipped. -/
theorem closed_neighbour_never_admitted_witness :
    assess startCell [startCell] setupGrid [] startPos = .cont setupGrid [] :=
  closed_neighbour_never_admitted startCell [startCell] setupGrid [] startPos
    (by decide) (by decide)

/-! ### Realizability of barrier layouts via `create_barriers` -/

theorem create_barriers_all_accepted :
    ∀ (ps : List CellPosition) (r : Nat) (gr : Grid), r ≤ ps.length →
      (∀ p ∈ ps, (gr p).state ≠ .START ∧ (gr p).state ≠ .TARGET) →
      create_barriers ps r gr =
        some (List.foldl (fun gg p => setCellState gg p .BARRIER) gr (ps.take r)) := by
  intro ps
  induction ps with
  | nil =>
    intro r gr hr _
    cases r with
    | zero => rfl
    | succ n => simp at hr
  | cons p ps ih =>
    intro r gr hr hacc
    cases r with
    | zero => rfl
    | succ n =>
      have hp := hacc p (List.mem_cons_self _ _)
      unfold create_barriers
      rw [if_pos hp]
      have hacc2 : ∀ q ∈ ps, ((setCellState gr p .BARRIER) q).state ≠ .START ∧
          ((setCellState gr p .BARRIER) q).state ≠ .TARGET := by
        intro q hq
        by_cases hqp : q = p
        · subst hqp
          simp [setCellState, updateGrid]
        · have := hacc q (List.mem_cons_of_mem _ hq)
          simpa [setCellState, updateGrid, hqp] using this
      have hr2 : n ≤ ps.length := by simpa using hr
      rw [ih n (setCellState gr p .BARRIER) hr2 hacc2]
      rfl

theorem foldl_setBarrier_apply :
    ∀ (l : List CellPosition) (gr : Grid) (q : CellPosition),
      (List.foldl (fun gg p => setCellState gg p .BARRIER) gr l) q =
        if q ∈ l then { gr q with state := .BARRIER } else gr q := by
  intro l
  induction l with
  | nil => intro gr q; simp
  | cons a l ih =>
    intro gr q
    rw [List.foldl_cons, ih]
    by_cases hql : q ∈ l
    · rw [if_pos hql, if_pos (List.mem_cons_of_mem _ hql)]
      by_cases hqa : q = a
      · subst hqa; simp [setCellState, updateGrid]
      · simp [setCellState, updateGrid, hqa]
    · rw [if_neg hql]
      by_cases hqa : q = a
      · subst hqa
        rw [if_pos (List.mem_cons_self _ _)]
        simp [setCellState, updateGrid]
      · rw [if_neg (by simp [hqa, hql])]
        simp [setCellState, updateGrid, hqa]

theorem mem_ringStartSamples {p : CellPosition} :
    p ∈ ringStartSamples ↔ p ∈ ringStart := by
  constructor
  · intro hp
    rcases List.mem_append.mp hp with h1 | h2
    · exact h1
    · have : p = ⟨1, 6⟩ := (List.eq_of_mem_replicate h2)
      subst this
      decide
  · intro hp
    exact List.mem_append.mpr (Or.inl hp)

theorem createA : create_barriers ringStartSamples 1000 setupGrid = some gridA := by
  have hlen : (1000 : Nat) ≤ ringStartSamples.length := by
    simp [ringStartSamples, ringStart]
  have hacc0 : ∀ p ∈ ringStart,
      (setupGrid p).state ≠ .START ∧ (setupGrid p).state ≠ .TARGET := by decide
  have hacc : ∀ p ∈ ringStartSamples,
      (setupGrid p).state ≠ .START ∧ (setupGrid p).state ≠ .TARGET := by
    intro p hp
    exact hacc0 p (mem_ringStartSamples.mp hp)
  have htake : ringStartSamples.take 1000 = ringStartSamples := by
    apply List.take_of_length_le
    simp [ringStartSamples, ringStart]
  rw [create_barriers_all_accepted ringStartSamples 1000 setupGrid hlen hacc, htake]
  congr 1
  funext q
  rw [foldl_setBarrier_apply]
  simp only [gridA, barrieredGrid, mem_ringStartSamples]

/-- C1 (counterexample): in the run seeded by `create_barriers(1000)` with all
samples on the Chebyshev-radius-2 ring around the start, the explored log
after 4 steps of `a_star` records the coordinate `(4, 9)` twice: the frontier
held a duplicate entry for `(4, 9)` (see the in-queue scan of C10), and each
pop appends to `closed_nodes` unconditionally. -/
theorem explored_set_repeats_coordinate :
    create_barriers ringStartSamples 1000 setupGrid = some gridA ∧
    ((runFrom gridA 4).closed.countP
      (fun c => c.position == (⟨4, 9⟩ : CellPosition))) = 2 :=
  ⟨createA, by decide⟩

/-- C10: the in-frontier membership scan runs `o` over `0 <= o < idx` only,
so the entry stored at index `idx` — in particular the single seeded entry of
the initial frontier, and any entry just pushed — is never reported as
present; consequently, in the run seeded with the ring-around-start barriers
the frontier after 2 steps holds two entries with coordinate `(4, 9)`. -/
theorem in_queue_scan_misses_top :
    inQueueScan initQueue startPos = false ∧
    initQueue.getLast? = some startCell ∧
    startCell.position = startPos ∧
    create_barriers ringStartSamples 1000 setupGrid = some gridA ∧
    ((runFrom gridA 2).queue.countP
      (fun c => c.position == (⟨4, 9⟩ : CellPosition))) = 2 :=
  ⟨by decide, by decide, rfl, createA, by decide⟩

/-- Supporting fact for C3 (code bug): after 4 steps of the
ring-around-start run the frontier and the explored log together hold 11
entries over only 9 distinct coordinates, so the spec's premise that each
coordinate is admitted at most once — which is what would cap
frontier + explored at `N * N` — already fails. -/
theorem entries_exceed_distinct_coordinates :
    create_barriers ringStartSamples 1000 setupGrid = some gridA ∧
    ((runFrom gridA 4).queue ++ (runFrom gridA 4).closed).length = 11 ∧
    (((runFrom gridA 4).queue ++ (runFrom gridA 4).closed).map
      Cell.position).dedup.length = 9 :=
  ⟨createA, by decide, by decide⟩

/-- C6 (counterexample): when the random stream repeats a coordinate,
`create_barriers` counts the repeated placement towards `n_barriers`, so with
`count = 2` and both samples at `(0, 0)` it terminates with only 1 distinct
barrier cell — not the 2 the claim promises (and `2 < 40 * 40 - 2`). -/
theorem create_barriers_repeated_sample_undercounts :
    (create_barriers [origin, origin] 2 setupGrid).map countBarriers = some 1 ∧
    (2 : Nat) < 40 * 40 - 2 :=
  ⟨by decide, by decide⟩

/-! ### Counting lemmas for the barrier generator -/

theorem countP_setBarrier_le (gr : Grid) (p : CellPosition) :
    ∀ l : List CellPosition,
      l.countP (fun q => ((setCellState gr p .BARRIER) q).state == .BARRIER) ≤
        l.countP (fun q => (gr q).state == .BARRIER) + l.count p := by
  intro l
  induction l with
  | nil => simp
  | cons a l ih =>
    simp only [List.countP_cons, List.count_cons]
    by_cases hap : a = p
    · subst hap
      have h1 : ((setCellState gr a .BARRIER a).state == CellState.BARRIER) = true := by
        simp [setCellState, updateGrid]
      have h2 : (a == a) = true := beq_self_eq_true a
      rw [h1, h2]
      have h3 : (if ((gr a).state == CellState.BARRIER) = true then (1 : Nat) else 0) ≤ 1 := by
        split <;> omega
      simp only [if_pos rfl]
      omega
    · have h2 : setCellState gr p .BARRIER a = gr a := by
        simp [setCellState, updateGrid, hap]
      have h3 : (a == p) = false := beq_false_of_ne hap
      rw [h2, h3]
      simp only [Bool.false_eq_true, if_false]
      omega

theorem allCoords_nodup : allCoords.Nodup := by
  unfold allCoords
  rw [List.nodup_flatMap]
  constructor
  · intro x _
    refine List.Nodup.map_on ?_ (List.nodup_range 40)
    intro y1 _ y2 _ hy
    have := congrArg CellPosition.y hy
    simpa using this
  · have hnd : (List.range 40).Pairwise (fun a b => a ≠ b) := List.nodup_range 40
    refine List.Pairwise.imp ?_ hnd
    intro a b hab
    intro c hc1 hc2
    rcases List.mem_map.mp hc1 with ⟨y1, _, hcy1⟩
    rcases List.mem_map.mp hc2 with ⟨y2, _, hcy2⟩
    apply hab
    have h1 := congrArg CellPosition.x hcy1
    have h2 := congrArg CellPosition.x hcy2
    simp only at h1 h2
    have hx : ((a : Int)) = ((b : Int)) := h1.trans h2.symm
    exact_mod_cast hx

theorem countBarriers_setBarrier_le (gr : Grid) (p : CellPosition) :
    countBarriers (setCellState gr p .BARRIER) ≤ countBarriers gr + 1 := by
  have hcount : allCoords.count p ≤ 1 :=
    List.nodup_iff_count_le_one.mp allCoords_nodup p
  have h := countP_setBarrier_le gr p allCoords
  unfold countBarriers
  omega

/-- C6 (amended part): whenever `create_barriers` terminates, starting from a
grid whose start and target cells carry their states, the resulting grid
still has those states at start and target (hence no barrier cell is the
start or the target), and the number of distinct `BARRIER` cells grew by at
most the requested count — exactly the count only when the accepted samples
are pairwise distinct. -/
theorem create_barriers_bounded_and_avoids_endpoints :
    ∀ (ps : List CellPosition) (r : Nat) (gr0 gr : Grid),
      create_barriers ps r gr0 = some gr →
      (gr0 startPos).state = .START → (gr0 targetPos).state = .TARGET →
      (gr startPos).state = .START ∧ (gr targetPos).state = .TARGET ∧
        (∀ p : CellPosition, (gr p).state = .BARRIER →
          p ≠ startPos ∧ p ≠ targetPos) ∧
        countBarriers gr ≤ countBarriers gr0 + r := by
  intro ps
  induction ps with
  | nil =>
    intro r gr0 gr hcb hs ht
    cases r with
    | zero =>
      have hgr : gr0 = gr := by
        simpa [create_barriers] using hcb
      subst hgr
      refine ⟨hs, ht, ?_, Nat.le_add_right _ _⟩
      intro p hp
      constructor
      · intro hps; subst hps; rw [hs] at hp; cases hp
      · intro hpt; subst hpt; rw [ht] at hp; cases hp
    | succ n => simp [create_barriers] at hcb
  | cons p ps ih =>
    intro r gr0 gr hcb hs ht
    cases r with
    | zero =>
      have hgr : gr0 = gr := by
        simpa [create_barriers] using hcb
      subst hgr
      refine ⟨hs, ht, ?_, Nat.le_add_right _ _⟩
      intro q hq
      constructor
      · intro hqs; subst hqs; rw [hs] at hq; cases hq
      · intro hqt; subst hqt; rw [ht] at hq; cases hq
    | succ n =>
      unfold create_barriers at hcb
      by_cases hcond : (gr0 p).state ≠ .START ∧ (gr0 p).state ≠ .TARGET
      · rw [if_pos hcond] at hcb
        have hps : p ≠ startPos := by
          intro hp; subst hp; exact hcond.1 hs
        have hpt : p ≠ targetPos := by
          intro hp; subst hp; exact hcond.2 ht
        have hs2 : ((setCellState gr0 p .BARRIER) startPos).state = .START := by
          simp only [setCellState, updateGrid]
          rw [if_neg (fun hh => hps hh.symm)]
          exact hs
        have ht2 : ((setCellState gr0 p .BARRIER) targetPos).state = .TARGET := by
          simp only [setCellState, updateGrid]
          rw [if_neg (fun hh => hpt hh.symm)]
          exact ht
        obtain ⟨c1, c2, c3, c4⟩ := ih n (setCellState gr0 p .BARRIER) gr hcb hs2 ht2
        refine ⟨c1, c2, c3, ?_⟩
        have := countBarriers_setBarrier_le gr0 p
        omega
      · rw [if_neg hcond] at hcb
        exact ih (n + 1) gr0 gr hcb hs ht

/-- Witness for C6's amended statement: two placements, both at the origin. -/
theorem create_barriers_bounded_witness :
    (doubleOriginBarrierGrid startPos).state = .START ∧
    (doubleOriginBarrierGrid targetPos).state = .TARGET ∧
    (∀ p : CellPosition, (doubleOriginBarrierGrid p).state = .BARRIER →
      p ≠ startPos ∧ p ≠ targetPos) ∧
    countBarriers doubleOriginBarrierGrid ≤ countBarriers setupGrid + 2 :=
  create_barriers_bounded_and_avoids_endpoints [origin, origin] 2 setupGrid
    doubleOriginBarrierGrid rfl (by decide) (by decide)

/-! ### Grid invariant preservation (towards C8) -/

theorem posMatch_iff {c : Cell} {p : CellPosition} :
    ((c.position.x == p.x && c.position.y == p.y) = true) ↔ c.position = p := by
  constructor
  · intro hb
    rcases Bool.and_eq_true_iff.mp hb with ⟨h1, h2⟩
    have hx : c.position.x = p.x := beq_iff_eq.mp h1
    have hy : c.position.y = p.y := beq_iff_eq.mp h2
    calc c.position = ⟨c.position.x, c.position.y⟩ := rfl
      _ = ⟨p.x, p.y⟩ := by rw [hx, hy]
      _ = p := rfl
  · intro hcp
    rw [hcp]
    simp

theorem isClosedScan_of_mem {closed : List Cell} {c : Cell} {p : CellPosition}
    (hc : c ∈ closed) (hcp : c.position = p) : isClosedScan closed p = true := by
  unfold isClosedScan
  rw [List.any_eq_true]
  exact ⟨c, hc, posMatch_iff.mpr hcp⟩

theorem neighboursOf_x {p : CellPosition} {x y : Int} (hp : p ∈ neighboursOf x y) :
    p.x = x - 1 ∨ p.x = x + 1 ∨ p.x = x := by
  simp only [neighboursOf, List.mem_cons, List.not_mem_nil, or_false] at hp
  rcases hp with h | h | h | h | h | h | h | h <;> subst h <;> simp

theorem cur_ne_start_of_target_neighbour {cur : Cell}
    (hp : targetPos ∈ neighboursOf cur.position.x cur.position.y) :
    cur.position ≠ startPos := by
  intro hcontra
  have hx := neighboursOf_x hp
  rw [hcontra] at hx
  simp only [targetPos, startPos, TARGET_X, START_X] at hx
  omega

theorem gridInv_setCellState {gr : Grid} {p : CellPosition} {st : CellState}
    (hg : GridInv gr) (hps : p ≠ startPos) (hpt : p ≠ targetPos)
    (hst : st ≠ .TARGET) : GridInv (setCellState gr p st) := by
  obtain ⟨hA, hB, hC, hD, hE, hF⟩ := hg
  have happ : ∀ q, (setCellState gr p st) q =
      if q = p then { gr p with state := st } else gr q := fun q => rfl
  refine ⟨?_, ?_, ?_, ?_, ?_, ?_⟩
  · rw [happ, if_neg (fun hh => hps hh.symm)]; exact hA
  · rw [happ, if_neg (fun hh => hpt hh.symm)]; exact hB
  · intro q hq
    rw [happ]
    by_cases hqp : q = p
    · rw [if_pos hqp]; exact hst
    · rw [if_neg hqp]; exact hC q hq
  · intro q
    rw [happ]
    by_cases hqp : q = p
    · rw [if_pos hqp]
      subst hqp
      simpa using hD q
    · rw [if_neg hqp]; exact hD q
  · intro q
    rw [happ]
    by_cases hqp : q = p
    · rw [if_pos hqp]; exact hE p
    · rw [if_neg hqp]; exact hE q
  · rw [happ, if_neg (fun hh => hps hh.symm)]; exact hF

theorem gridInv_admission {gr : Grid} {cur : Cell} {p : CellPosition}
    (hg : GridInv gr) (hps : p ≠ startPos) (hpt : p ≠ targetPos)
    (hcur : cur.position ≠ targetPos) :
    GridInv (updateGrid gr p (updatedNeighbourCell gr cur p)) := by
  obtain ⟨hA, hB, hC, hD, hE, hF⟩ := hg
  have happ : ∀ q, (updateGrid gr p (updatedNeighbourCell gr cur p)) q =
      if q = p then updatedNeighbourCell gr cur p else gr q := fun q => rfl
  refine ⟨?_, ?_, ?_, ?_, ?_, ?_⟩
  · rw [happ, if_neg (fun hh => hps hh.symm)]; exact hA
  · rw [happ, if_neg (fun hh => hpt hh.symm)]; exact hB
  · intro q hq
    rw [happ]
    by_cases hqp : q = p
    · rw [if_pos hqp]
      show (if (gr p).state = .EMPTY then CellState.NEIGHBOUR else (gr p).state) ≠ .TARGET
      by_cases he : (gr p).state = .EMPTY
      · rw [if_pos he]; simp
      · rw [if_neg he]; exact hC p hpt
    · rw [if_neg hqp]; exact hC q hq
  · intro q
    rw [happ]
    by_cases hqp : q = p
    · rw [if_pos hqp]; left; rw [hqp]; rfl
    · rw [if_neg hqp]; exact hD q
  · intro q
    rw [happ]
    by_cases hqp : q = p
    · rw [if_pos hqp]; exact hcur
    · rw [if_neg hqp]; exact hE q
  · rw [happ, if_neg (fun hh => hps hh.symm)]; exact hF

theorem drawPathGo_succ (gr : Grid) (tmp : Cell) (n : Nat) :
    drawPathGo gr tmp (n + 1) =
      if ((setCellState gr tmp.position .PATH) tmp.parent_position).parent_position =
          (⟨-1, -1⟩ : CellPosition) then
        (setCellState gr tmp.position .PATH, 1)
      else
        ((drawPathGo (setCellState gr tmp.position .PATH)
            ((setCellState gr tmp.position .PATH) tmp.parent_position) n).fst,
         (drawPathGo (setCellState gr tmp.position .PATH)
            ((setCellState gr tmp.position .PATH) tmp.parent_position) n).snd + 1) := rfl

theorem gridInv_drawPathGo :
    ∀ (fuel : Nat) (gr : Grid) (tmp : Cell), GridInv gr → TmpOk tmp →
      GridInv (drawPathGo gr tmp fuel).fst := by
  intro fuel
  induction fuel with
  | zero => intro gr tmp hg _; exact hg
  | succ n ih =>
    intro gr tmp hg htmp
    obtain ⟨ht1, ht2, ht3⟩ := htmp
    have hg1 : GridInv (setCellState gr tmp.position .PATH) :=
      gridInv_setCellState hg ht2 ht1 (by simp)
    rw [drawPathGo_succ]
    by_cases hstop : ((setCellState gr tmp.position .PATH) tmp.parent_position).parent_position =
        (⟨-1, -1⟩ : CellPosition)
    · rw [if_pos hstop]; exact hg1
    · rw [if_neg hstop]
      apply ih _ _ hg1
      obtain ⟨_, _, _, hD1, hE1, hF1⟩ := hg1
      refine ⟨?_, ?_, hE1 tmp.parent_position⟩
      · rcases hD1 tmp.parent_position with hh | hh
        · rw [hh]; exact ht3
        · rw [hh]; exact (by decide : origin ≠ targetPos)
      · intro hcontra
        rcases hD1 tmp.parent_position with hh | hh
        · rw [hh] at hcontra
          apply hstop
          rw [hcontra, hF1]
          rfl
        · rw [hh] at hcontra
          exact absurd hcontra (by decide)

theorem gridInv_draw_path {gr : Grid} {cur : Cell} (hg : GridInv gr)
    (h1 : cur.position ≠ targetPos) (h2 : cur.position ≠ startPos) :
    GridInv (draw_path gr cur) := by
  unfold draw_path
  apply gridInv_drawPathGo _ _ _ hg
  obtain ⟨_, _, _, hD, hE, _⟩ := hg
  refine ⟨?_, ?_, hE cur.position⟩
  · rcases hD cur.position with hh | hh
    · rw [hh]; exact h1
    · rw [hh]; exact (by decide : origin ≠ targetPos)
  · rcases hD cur.position with hh | hh
    · rw [hh]; exact h2
    · rw [hh]; exact (by decide : origin ≠ startPos)

theorem gridInv_setupGrid : GridInv setupGrid := by
  have happ : ∀ q : CellPosition, setupGrid q =
      if q = targetPos then targetCell
      else if q = startPos then startCell else zeroCell := fun q => rfl
  refine ⟨?_, ?_, ?_, ?_, ?_, ?_⟩
  · rw [happ, if_neg (by decide : ¬ (startPos = targetPos)), if_pos rfl]; rfl
  · rw [happ, if_pos rfl]; rfl
  · intro p hp
    rw [happ, if_neg hp]
    by_cases hps : p = startPos
    · rw [if_pos hps]; decide
    · rw [if_neg hps]; decide
  · intro p
    rw [happ]
    by_cases hpt : p = targetPos
    · rw [if_pos hpt]; left; rw [hpt]; rfl
    · rw [if_neg hpt]
      by_cases hps : p = startPos
      · rw [if_pos hps]; left; rw [hps]; rfl
      · rw [if_neg hps]; right; rfl
  · intro p
    rw [happ]
    by_cases hpt : p = targetPos
    · rw [if_pos hpt]; decide
    · rw [if_neg hpt]
      by_cases hps : p = startPos
      · rw [if_pos hps]; decide
      · rw [if_neg hps]; decide
  · rw [happ, if_neg (by decide : ¬ (startPos = targetPos)), if_pos rfl]; rfl

theorem gridInv_create_barriers :
    ∀ (ps : List CellPosition) (r : Nat) (gr0 gr : Grid),
      GridInv gr0 → create_barriers ps r gr0 = some gr → GridInv gr := by
  intro ps
  induction ps with
  | nil =>
    intro r gr0 gr hg hcb
    cases r with
    | zero =>
      have hgr : gr0 = gr := by simpa [create_barriers] using hcb
      exact hgr ▸ hg
    | succ n => simp [create_barriers] at hcb
  | cons p ps ih =>
    intro r gr0 gr hg hcb
    cases r with
    | zero =>
      have hgr : gr0 = gr := by simpa [create_barriers] using hcb
      exact hgr ▸ hg
    | succ n =>
      unfold create_barriers at hcb
      by_cases hcond : (gr0 p).state ≠ .START ∧ (gr0 p).state ≠ .TARGET
      · rw [if_pos hcond] at hcb
        apply ih n _ gr _ hcb
        have hps : p ≠ startPos := fun hp => hcond.1 (by rw [hp]; exact hg.1)
        have hpt : p ≠ targetPos := fun hp => hcond.2 (by rw [hp]; exact hg.2.1)
        exact gridInv_setCellState hg hps hpt (by simp)
      · rw [if_neg hcond] at hcb
        exact ih (n + 1) gr0 gr hg hcb

theorem assess_cases (cur : Cell) (closed : List Cell) (gr : Grid) (q : List Cell)
    (p : CellPosition) :
    (assess cur closed gr q p = .cont gr q) ∨
    (inBounds p = true ∧ (gr p).state ≠ .TARGET ∧ (gr p).state ≠ .BARRIER ∧
      isClosedScan closed p = false ∧
      assess cur closed gr q p =
        .cont (updateGrid gr p (updatedNeighbourCell gr cur p))
          (enqueue q (updatedNeighbourCell gr cur p))) ∨
    ((gr p).state = .TARGET ∧ inBounds p = true ∧
      assess cur closed gr q p = .foundTarget (draw_path gr cur)) := by
  by_cases hb : inBounds p = true
  · by_cases ht : (gr p).state = .TARGET
    · right; right
      refine ⟨ht, hb, ?_⟩
      unfold assess
      rw [hb]
      simp only [Bool.not_true, Bool.false_eq_true, if_false]
      rw [if_pos ht]
    · by_cases hbar : (gr p).state = .BARRIER
      · left
        unfold assess
        rw [hb]
        simp only [Bool.not_true, Bool.false_eq_true, if_false]
        rw [if_neg ht, if_pos hbar]
      · by_cases hcl : isClosedScan closed p = true
        · left
          unfold assess
          rw [hb]
          simp only [Bool.not_true, Bool.false_eq_true, if_false]
          rw [if_neg ht, if_neg hbar, hcl, if_pos rfl]
        · have hcl2 : isClosedScan closed p = false := by
            cases hfb : isClosedScan closed p
            · rfl
            · exact absurd hfb hcl
          by_cases hcond : (!(inQueueScan q p) ||
              decide (cur.g_cost +
                compute_distance cur.position.x cur.position.y p.x p.y ≤ g p.x p.y)) = true
          · right; left
            refine ⟨hb, ht, hbar, hcl2, ?_⟩
            unfold assess
            rw [hb]
            simp only [Bool.not_true, Bool.false_eq_true, if_false]
            rw [if_neg ht, if_neg hbar, hcl2,
              if_neg (by simp : ¬ (false = true)), if_pos hcond]
          · left
            unfold assess
            rw [hb]
            simp only [Bool.not_true, Bool.false_eq_true, if_false]
            rw [if_neg ht, if_neg hbar, hcl2,
              if_neg (by simp : ¬ (false = true)), if_neg hcond]
  · have hb2 : inBounds p = false := by
      cases hfb : inBounds p
      · rfl
      · exact absurd hfb hb
    left
    unfold assess
    rw [hb2]
    simp

theorem processNeighbours_cons_cont {cur : Cell} {closed1 : List Cell}
    {p : CellPosition} {rest : List CellPosition} {gr gr1 : Grid} {q q1 : List Cell}
    (hres : assess cur closed1 gr q p = .cont gr1 q1) :
    processNeighbours cur closed1 (p :: rest) gr q =
      processNeighbours cur closed1 rest gr1 q1 := by
  simp only [processNeighbours, hres]

theorem processNeighbours_cons_found {cur : Cell} {closed1 : List Cell}
    {p : CellPosition} {rest : List CellPosition} {gr gr1 : Grid} {q : List Cell}
    (hres : assess cur closed1 gr q p = .foundTarget gr1) :
    processNeighbours cur closed1 (p :: rest) gr q = ⟨gr1, q, closed1, true⟩ := by
  simp only [processNeighbours, hres]

theorem searchInv_processNeighbours :
    ∀ (ns : List CellPosition) (cur : Cell) (closed1 : List Cell) (gr : Grid)
      (q : List Cell),
      GridInv gr →
      (∀ c ∈ q, inBounds c.position = true ∧ c.position ≠ targetPos) →
      startPos ∈ closed1.map Cell.position →
      cur.position ≠ targetPos →
      (∀ p ∈ ns, p ∈ neighboursOf cur.position.x cur.position.y) →
      SearchInv (processNeighbours cur closed1 ns gr q) := by
  intro ns
  induction ns with
  | nil =>
    intro cur closed1 gr q hg hq hstart _ _
    refine ⟨hg, ?_, Or.inr hstart⟩
    intro c hc
    exact hq c (mem_sortDesc.mp hc)
  | cons p rest ih =>
    intro cur closed1 gr q hg hq hstart hcur hsub
    have hsub_rest : ∀ r ∈ rest, r ∈ neighboursOf cur.position.x cur.position.y :=
      fun r hr => hsub r (List.mem_cons_of_mem _ hr)
    rcases assess_cases cur closed1 gr q p with
      hskip | ⟨hb, ht, hbar, hcl, hadm⟩ | ⟨htgt, hb, hfound⟩
    · rw [processNeighbours_cons_cont hskip]
      exact ih cur closed1 gr q hg hq hstart hcur hsub_rest
    · rw [processNeighbours_cons_cont hadm]
      have hpt : p ≠ targetPos := by
        intro hcontra; subst hcontra; exact ht hg.2.1
      have hps : p ≠ startPos := by
        intro hcontra
        subst hcontra
        rcases List.mem_map.mp hstart with ⟨c, hcmem, hcpos⟩
        have := isClosedScan_of_mem hcmem hcpos
        rw [hcl] at this
        cases this
      apply ih
      · exact gridInv_admission hg hps hpt hcur
      · intro c hc
        rcases mem_enqueue hc with hold | hnew
        · exact hq c hold
        · subst hnew
          exact ⟨hb, hpt⟩
      · exact hstart
      · exact hcur
      · exact hsub_rest
    · rw [processNeighbours_cons_found hfound]
      have hptgt : p = targetPos := by
        by_contra hne
        exact hg.2.2.1 p hne htgt
      have hcur_start : cur.position ≠ startPos := by
        apply cur_ne_start_of_target_neighbour
        rw [← hptgt]
        exact hsub p (List.mem_cons_self _ _)
      exact ⟨gridInv_draw_path hg hcur hcur_start, hq, Or.inr hstart⟩

theorem a_star_eq_of_pop {s : AState} (hf : ¬ (s.found_target = true)) {cur : Cell}
    {q1 : List Cell} (hpop : pop s.queue = some (cur, q1)) :
    a_star s = processNeighbours cur (s.closed ++ [cur])
      (neighboursOf cur.position.x cur.position.y)
      (if (s.grid ⟨cur.position.x, cur.position.y⟩).state ≠ .START then
        setCellState s.grid ⟨cur.position.x, cur.position.y⟩ .VISITED
      else s.grid) q1 := by
  unfold a_star
  rw [if_neg hf, hpop]

theorem searchInv_a_star {s : AState} (hs : SearchInv s) : SearchInv (a_star s) := by
  obtain ⟨hg, hq, hstart⟩ := hs
  by_cases hf : s.found_target = true
  · unfold a_star
    rw [if_pos hf]
    exact ⟨hg, hq, hstart⟩
  · cases hpop : pop s.queue with
    | none =>
      unfold a_star
      rw [if_neg hf, hpop]
      exact ⟨hg, hq, hstart⟩
    | some pr =>
      obtain ⟨cur, q1⟩ := pr
      rw [a_star_eq_of_pop hf hpop]
      obtain ⟨hcur_b, hcur_t⟩ := hq cur (pop_eq_some hpop).1
      have hq1 : ∀ c ∈ q1, inBounds c.position = true ∧ c.position ≠ targetPos := by
        intro c hc
        apply hq
        apply mem_of_mem_dropLast
        rw [← (pop_eq_some hpop).2]
        exact hc
      have hstart1 : startPos ∈ (s.closed ++ [cur]).map Cell.position := by
        rcases hstart with hall | hmem
        · rw [List.map_append]
          apply List.mem_append.mpr
          right
          simp [hall cur (pop_eq_some hpop).1]
        · rw [List.map_append]
          exact List.mem_append.mpr (Or.inl hmem)
      have hmeq : (⟨cur.position.x, cur.position.y⟩ : CellPosition) = cur.position := rfl
      have hg1 : GridInv (if (s.grid ⟨cur.position.x, cur.position.y⟩).state ≠ .START then
          setCellState s.grid ⟨cur.position.x, cur.position.y⟩ .VISITED else s.grid) := by
        by_cases hvis : (s.grid ⟨cur.position.x, cur.position.y⟩).state ≠ .START
        · rw [if_pos hvis]
          apply gridInv_setCellState hg
          · intro hcontra
            apply hvis
            rw [hcontra]
            exact hg.1
          · rw [hmeq]; exact hcur_t
          · simp
        · rw [if_neg hvis]; exact hg
      exact searchInv_processNeighbours _ cur _ _ q1 hg1 hq1 hstart1 hcur_t
        (fun p hp => hp)

theorem searchInv_init (gr : Grid) (hg : GridInv gr) :
    SearchInv (initStateWith gr) := by
  have hiq : initQueue = [startCell] := by decide
  refine ⟨hg, ?_, Or.inl ?_⟩
  · intro c hc
    have hcs : c = startCell := by
      rw [show (initStateWith gr).queue = initQueue from rfl, hiq] at hc
      simpa using hc
    subst hcs
    exact ⟨by decide, by decide⟩
  · intro c hc
    have hcs : c = startCell := by
      rw [show (initStateWith gr).queue = initQueue from rfl, hiq] at hc
      simpa using hc
    subst hcs
    rfl

/-- C8: for every barrier sample stream accepted by `create_barriers(1000)`
and every number of `a_star` steps, the start cell's state is still `START`
and the target cell's state is still `TARGET`: neither search stepping, nor
path reconstruction, nor barrier generation ever touches them. -/
theorem start_target_states_invariant (ps : List CellPosition) (gr : Grid)
    (k : Nat) (hgr : create_barriers ps 1000 setupGrid = some gr) :
    ((runFrom gr k).grid startPos).state = .START ∧
    ((runFrom gr k).grid targetPos).state = .TARGET := by
  have hg0 : GridInv gr :=
    gridInv_create_barriers ps 1000 setupGrid gr gridInv_setupGrid hgr
  have hinv : ∀ n : Nat, SearchInv (runFrom gr n) := by
    intro n
    induction n with
    | zero => exact searchInv_init gr hg0
    | succ m ihm =>
      have hstep : runFrom gr (m + 1) = a_star (runFrom gr m) :=
        Function.iterate_succ_apply' a_star m (initStateWith gr)
      rw [hstep]
      exact searchInv_a_star ihm
  exact ⟨(hinv k).1.1, (hinv k).1.2.1⟩

/-- Witness for C8: the ring-around-start run after 3 steps. -/
theorem start_target_states_invariant_witness :
    ((runFrom gridA 3).grid startPos).state = .START ∧
    ((runFrom gridA 3).grid targetPos).state = .TARGET :=
  start_target_states_invariant ringStartSamples gridA 3 createA
